import Mathlib

/-!
# Verification of the pims frame-addressing core

Shallow embedding of the pims repository (danielballan/pims) covering:

* `pims/image_sequence.py` — `BaseImageSequence._get_files`,
  `BaseImageSequence.get_frame`, `filename_to_indices`;
* `pims/bioformats.py` — `BioformatsReaderRaw._change_series`, the `series`
  property setter, `BioformatsReaderRaw._get_frame` (array shaping),
  `BioformatsReader.__len__`, `BioformatsReader.get_frame` (bundle assembly,
  metadata folding, squeeze);
* `pims/zvi_reader.py` — `ZVI.__init__` (table of contents) and `ZVI.__len__`.

Numpy arrays are modelled as a shape together with flat C-order data
(`NDArray`).  Python exceptions are modelled with `Except`/`Option` values.
Python `sorted` (a stable comparison sort) is modelled with the stable
`List.insertionSort`.  The natural-order key `pims.utils.sort.natural_keys`
is not part of the source tree and is modelled from the specification.
-/

/-- Python exception classes that the modelled code can raise. -/
inductive PyErr : Type
  | valueError : PyErr
  | indexError : PyErr
deriving DecidableEq, Repr

/-- Value of a decimal digit character (so that the char '7' maps to 7). -/
def digitVal (c : Char) : Nat := c.toNat - 48

/-- Integer denoted by a list of decimal digit characters, as Python
`int(...)` computes it on a digits-only string (leading zeros allowed). -/
def digitsToNat (ds : List Char) : Nat :=
  ds.foldl (fun acc c => acc * 10 + digitVal c) 0

/-! ## numpy array model: shape plus flat C-order data -/

/-- A numpy `ndarray`: the shape, and the underlying flat buffer in C order.
Only the first `shape.prod` entries of `data` are meaningful. -/
structure NDArray (α : Type) where
  shape : List Nat
  data : Nat → α

/-- `np.zeros(shape)` (the dtype zero is passed explicitly). -/
def npZeros (shape : List Nat) (zero : α) : NDArray α :=
  ⟨shape, fun _ => zero⟩

/-- `ndarray.squeeze()`: numpy drops every axis of length 1; the flat
C-order buffer is unchanged. -/
def npSqueeze (a : NDArray α) : NDArray α :=
  ⟨a.shape.filter (fun d => d != 1), a.data⟩

/-- `ndarray.transpose(1, 2, 0)` on a 3-D array: axis `i` of the result is
axis `(i + 1) mod 3` of the input.  On the flat C-order view, the element at
multi-index `(i1, i2, i0)` of the result is the input element at
`(i0, i1, i2)`.  Non-3-D arrays are returned unchanged (the code only
applies this to a 3-D array). -/
def transpose120 (a : NDArray α) : NDArray α :=
  match a.shape with
  | [s0, s1, s2] =>
    ⟨[s1, s2, s0], fun n =>
      let i1 := n / (s2 * s0)
      let r := n % (s2 * s0)
      let i2 := r / s0
      let i0 := r % s0
      a.data (i0 * (s1 * s2) + i1 * s2 + i2)⟩
  | _ => a

/-- Assigning a contiguous C-order block: `dst[base .. base+len) := src`. -/
def writeBlock (dst : Nat → α) (base len : Nat) (src : Nat → α) : Nat → α :=
  fun n => if base ≤ n ∧ n < base + len then src (n - base) else dst n

/-! ## pims/image_sequence.py -/

/-- A segment of a natural-order sort key: a run of non-digit characters, or
the numeric value of a run of digit characters. -/
abbrev NatSeg : Type := List Char ⊕ Nat

/-- State machine producing the alternating segments of a natural-order sort
key.  `cur` accumulates the pending non-digit run (reversed); in numeric mode
the accumulated value is carried.  Mirrors splitting with the regular
expression `([0-9]+)` followed by integer conversion of the numeric pieces:
the produced list always alternates string, number, string, ..., beginning
and ending with a (possibly empty) string segment. -/
def natSegsGo : (List Char ⊕ Nat) → List Char → List NatSeg
  | Sum.inl cur, [] => [Sum.inl cur.reverse]
  | Sum.inl cur, c :: cs =>
    if c.isDigit then Sum.inl cur.reverse :: natSegsGo (Sum.inr (digitVal c)) cs
    else natSegsGo (Sum.inl (c :: cur)) cs
  | Sum.inr n, [] => [Sum.inr n, Sum.inl []]
  | Sum.inr n, c :: cs =>
    if c.isDigit then natSegsGo (Sum.inr (n * 10 + digitVal c)) cs
    else Sum.inr n :: natSegsGo (Sum.inl [c]) cs

/-- Modelled from the spec: the Natural Ordering Comparator
(`pims.utils.sort.natural_keys`, imported by `image_sequence.py` but not part
of the source tree).  Spec §4.1: given a string, produce a sort key — a
sequence alternating string and integer segments, splitting at digit-boundary
transitions, with numeric segments converted to integers (an empty string
yields a single empty segment). -/
def natural_keys (s : String) : List NatSeg :=
  natSegsGo (Sum.inl []) s.toList

/-- Lexicographic comparison of character lists by code point, as Python
compares strings. -/
def strCmp : List Char → List Char → Ordering
  | [], [] => Ordering.eq
  | [], _ :: _ => Ordering.lt
  | _ :: _, [] => Ordering.gt
  | a :: as, b :: bs =>
    match compare a.toNat b.toNat with
    | Ordering.eq => strCmp as bs
    | o => o

/-- Comparison of two key segments.  Well-formed keys alternate segment kinds
in lockstep, so the mixed cases are never reached; they are given the Python 2
convention (numbers sort before strings). -/
def segCmp : NatSeg → NatSeg → Ordering
  | Sum.inl a, Sum.inl b => strCmp a b
  | Sum.inr m, Sum.inr n => compare m n
  | Sum.inr _, Sum.inl _ => Ordering.lt
  | Sum.inl _, Sum.inr _ => Ordering.gt

/-- Lexicographic comparison of whole keys, as Python compares lists. -/
def keyCmp : List NatSeg → List NatSeg → Ordering
  | [], [] => Ordering.eq
  | [], _ :: _ => Ordering.lt
  | _ :: _, [] => Ordering.gt
  | a :: as, b :: bs =>
    match segCmp a b with
    | Ordering.eq => keyCmp as bs
    | o => o

/-- The ordering `sorted(..., key=natural_keys)` sorts by. -/
def naturalLE (a b : String) : Prop :=
  keyCmp (natural_keys a) (natural_keys b) ≠ Ordering.gt

instance : DecidableRel naturalLE := fun a b => by
  unfold naturalLE; infer_instance

/-- Python `sorted(l, key=natural_keys)`: a stable comparison sort by the
natural-order key, modelled with the stable `List.insertionSort`. -/
def naturalSort (l : List String) : List String :=
  List.insertionSort naturalLE l

/-- `BaseImageSequence._get_files`, branch for a non-string `path_spec`
(an iterable of file names): `self._filepaths = sorted(list(path_spec),
key=natural_keys); self._count = len(path_spec)`. -/
def get_files_iterable (path_spec : List String) : List String × Nat :=
  (naturalSort path_spec, path_spec.length)

/-- `BaseImageSequence._get_files`, zipfile branch: the zip archive's name
list is filtered with `fnmatch.fnmatch(fn, "*.*")` (the match predicate is an
external collaborator, passed as a function) and sorted with the same key. -/
def get_files_zip (namelist : List String) (fnmatchAll : String → Bool) :
    List String × Nat :=
  let filepaths := namelist.filter fnmatchAll
  let sortedpaths := naturalSort filepaths
  (sortedpaths, sortedpaths.length)

/-- `BaseImageSequence._get_files`, directory branch: `os.listdir` results
(external) are mapped through `make_full_path` (external `os.path` logic) and
sorted with the same key. -/
def get_files_dir (filenames : List String) (makeFullPath : String → String) :
    List String × Nat :=
  let filepaths := filenames.map makeFullPath
  let sortedpaths := naturalSort filepaths
  (sortedpaths, sortedpaths.length)

/-- `BaseImageSequence._get_files`, glob branch: `glob.glob(path_spec)`
results (external) are sorted with the same key. -/
def get_files_glob (globbed : List String) : List String × Nat :=
  let sortedpaths := naturalSort globbed
  (sortedpaths, sortedpaths.length)

/-- Python list indexing `l[j]` for an integer `j`: a negative index is
shifted once by `len(l)`; an index then outside `[0, len(l))` raises
`IndexError`. -/
def pyListGet (l : List α) (j : Int) : Except PyErr α :=
  let i := if j < 0 then j + l.length else j
  if h : 0 ≤ i ∧ i < l.length then
    Except.ok (l.get ⟨i.toNat, by
      rcases h with ⟨h0, h1⟩
      omega
      ⟩)
  else Except.error PyErr.indexError

/-- `BaseImageSequence.get_frame(j)`: `if j > self._count: raise ValueError`;
otherwise the file at `self._filepaths[j]` is read (the read itself is an
external collaborator; the model returns the selected path). -/
def isq_get_frame (filepaths : List String) (count : Nat) (j : Int) :
    Except PyErr String :=
  if j > (count : Int) then Except.error PyErr.valueError
  else pyListGet filepaths j

/-- One alternative step of matching the regex `(id1|id2|...)(\d+)` at the
head of `cs`: the alternatives are tried in order; an alternative succeeds
when it is a literal prefix and at least one digit follows, in which case the
greedy digit run is consumed.  Returns the matched identifier, the digit run,
and the remaining characters. -/
def tryMatchIdent : List String → List Char → Option (String × List Char × List Char)
  | [], _ => none
  | a :: rest, cs =>
    let al := a.toList
    if al.isPrefixOf cs then
      let after := cs.drop al.length
      let ds := after.takeWhile Char.isDigit
      if ds.isEmpty then tryMatchIdent rest cs
      else some (a, ds, after.dropWhile Char.isDigit)
    else tryMatchIdent rest cs

/-- `re.findall("(id1|id2|...)(\d+)", s)`: scan left to right, taking
non-overlapping matches and advancing one character when no alternative
matches.  Structured with fuel (one unit per consumed character) so that the
function is structurally recursive; `fuel = cs.length` always suffices. -/
def reFindallAux (ids : List String) : Nat → List Char → List (String × List Char)
  | 0, _ => []
  | _, [] => []
  | fuel + 1, c :: cs =>
    match tryMatchIdent ids (c :: cs) with
    | some (a, ds, rem) => (a, ds) :: reFindallAux ids fuel rem
    | none => reFindallAux ids fuel cs

/-- `re.findall("(" + "|".join(escaped) + ")(\d+)", filename)` as used by
`filename_to_indices` (the identifiers are regex-escaped, hence literals). -/
def reFindall (ids : List String) (cs : List Char) : List (String × List Char) :=
  reFindallAux ids cs.length cs

/-- `pims.image_sequence.filename_to_indices(filename, identifiers)`:
find occurrences of, for example, `t001`/`z06`/`c2` in a filename and return
one index per identifier.  `dimensions[-3:]` is modelled by
`drop (length - 3)` (equal to the whole list when it has at most three
entries); `order.index(col)` is `findIdx?`, whose `ValueError` on a missing
identifier the source catches and turns into 0. -/
def retainedMatches (filename : String) (identifiers : List String) :
    List (String × List Char) :=
  let dims0 := reFindall identifiers filename.toList
  if dims0.length > identifiers.length then dims0.drop (dims0.length - 3)
  else dims0

def filename_to_indices (filename : String) (identifiers : List String) :
    List Nat :=
  let dims := retainedMatches filename identifiers
  let ord := dims.map Prod.fst
  identifiers.map (fun col =>
    match ord.findIdx? (fun a => a == col) with
    | some k => digitsToNat (dims.getD k ("", [])).2
    | none => 0)

/-- Value the C9 claim text ascribes to one result position, written with
`List.find?` over the retained match list: the integer of the first retained
match for the identifier, and 0 when there is none.  Used to compare the
claim's per-position description with the source computation. -/
def c9_position_value (dims : List (String × List Char)) (col : String) : Nat :=
  match dims.find? (fun d => d.1 == col) with
  | some d => digitsToNat d.2
  | none => 0

/-! ## pims/zvi_reader.py -/

/-- `re.match("Item\((\d+)\)", s)`, returning the captured integer: the
string must begin with `Item(`, then one or more digits, then `)` (anything
may follow, as `re.match` only anchors at the start). -/
def parseItemNumber (s : String) : Option Nat :=
  let cs := s.toList
  let pre := "Item(".toList
  if pre.isPrefixOf cs then
    let after := cs.drop pre.length
    let ds := after.takeWhile Char.isDigit
    let rem := after.dropWhile Char.isDigit
    if ds.isEmpty then none
    else if rem.head? = some ')' then some (digitsToNat ds) else none
  else none

/-- `ZVI.__init__` table-of-contents loop: for every OLE stream (a path given
by its components), streams whose first component is `Image` and whose second
component matches `Item\((\d+)\)` contribute their item number, in stream
order.  Streams with fewer than two components are skipped (the scenario the
claim is about has two-component streams only). -/
def zviToc (streams : List (List String)) : List Nat :=
  streams.foldl (fun toc stream =>
    match stream with
    | s0 :: s1 :: _ =>
      if s0 = "Image" then
        match parseItemNumber s1 with
        | some n => toc ++ [n]
        | none => toc
      else toc
    | _ => toc) []

/-- `ZVI.__init__`: `self._len = max(self._toc)`; `ZVI.__len__` returns it.
Python `max` of a nonempty list of naturals is its maximum (the reader's
table of contents is nonempty for any file with images). -/
def zviLen (streams : List (List String)) : Nat :=
  (zviToc streams).foldl Nat.max 0

/-! ## pims/bioformats.py: series bookkeeping -/

/-- The per-series values the Bio-Formats Java reader (`self.rdr`, an
external collaborator) reports after `setSeries`. -/
structure SeriesInfo where
  isRGB : Bool
  sizeRGB : Nat
  isInterleaved : Bool
  sizeT : Nat
  sizeZ : Nat
  sizeY : Nat
  sizeX : Nat
  sizeC : Nat
  imageCount : Nat
  pixelTypeCode : String
  littleEndian : Bool

/-- The attributes of `BioformatsReaderRaw` that `_change_series` derives
(plus the active series index).  `firstFrameShape` is `_first_frame_shape`,
`planes` is `_planes`, `sourceDtype`/`pixelType` are the numpy dtype
strings. -/
structure RawState where
  series : Int
  isRGB : Bool
  sizeRGB : Nat
  isInterleaved : Bool
  sizeT : Nat
  sizeZ : Nat
  sizeY : Nat
  sizeX : Nat
  sizeC : Nat
  firstFrameShape : List Nat
  planes : Nat
  sourceDtype : String
  pixelType : String

/-- `BioformatsReaderRaw._change_series`: rereads dtype and sizes from the
reader for the active series.  `rdr` maps a series index to what the Java
reader reports for it; `forced` is `self._forced_dtype`. -/
def change_series (rdr : Int → SeriesInfo) (forced : Option String)
    (s : RawState) : RawState :=
  let info := rdr s.series
  let sizeC := if info.isRGB then 1 else info.sizeC
  let ffs := if info.isRGB then [info.sizeY, info.sizeX, info.sizeRGB]
    else [info.sizeY, info.sizeX]
  let srcD := (if info.littleEndian then "<" else ">") ++ info.pixelTypeCode
  { series := s.series
    isRGB := info.isRGB
    sizeRGB := info.sizeRGB
    isInterleaved := info.isInterleaved
    sizeT := info.sizeT
    sizeZ := info.sizeZ
    sizeY := info.sizeY
    sizeX := info.sizeX
    sizeC := sizeC
    firstFrameShape := ffs
    planes := info.imageCount
    sourceDtype := srcD
    pixelType := forced.getD srcD }

/-- The `series` property setter of `BioformatsReaderRaw`: an index outside
`[0, series count)` raises `IndexError` (the Python object is left
untouched); a valid differing index is stored and `_change_series` reruns;
assigning the current index is a no-op. -/
def set_series (rdr : Int → SeriesInfo) (forced : Option String)
    (sizeSeries : Nat) (s : RawState) (value : Int) : Except PyErr RawState :=
  if value ≥ (sizeSeries : Int) ∨ value < 0 then Except.error PyErr.indexError
  else if value ≠ s.series then
    Except.ok (change_series rdr forced { s with series := value })
  else Except.ok s

/-- `BioformatsReader.__len__`: `return self._sizeT`. -/
def bioformatsLen (s : RawState) : Nat := s.sizeT

/-- The `sizes` property of `BioformatsReaderRaw`, as a mapping from axis
name to size. -/
def rawSizes (sizeSeries : Nat) (s : RawState) : String → Nat := fun a =>
  if a = "series" then sizeSeries
  else if a = "X" then s.sizeX
  else if a = "Y" then s.sizeY
  else if a = "Z" then s.sizeZ
  else if a = "C" then s.sizeC
  else if a = "T" then s.sizeT
  else 0

/-- Modelled from the spec: the Iteration/Bundling Planner
(`pims.base_frames.FramesSequenceND`, not part of the source tree).
Spec §3: Logical Length is the product of the sizes of the axes in
`iter_axes` (empty product = 1). -/
def logicalLength (sizes : String → Nat) (iterAxes : List String) : Nat :=
  (iterAxes.map sizes).prod

/-! ## pims/bioformats.py: plane shaping (`_get_frame`) -/

/-- The array-shaping part of `BioformatsReaderRaw._get_frame`: the decoded
plane buffer `buf` (flat, in the order the bytes arrive) is viewed as
`(sizeY, sizeX)` for non-RGB data, as `(sizeY, sizeX, sizeRGB)` for
interleaved RGB data, and for planar RGB data it is viewed as
`(sizeRGB, sizeY, sizeX)` and transposed with `transpose(1, 2, 0)` to put the
channel samples in the innermost dimension.  The dtype conversion
(`astype`) is value-level and out of scope. -/
def raw_get_frame_image (isRGB isInterleaved : Bool)
    (sizeY sizeX sizeRGB : Nat) (buf : Nat → α) : NDArray α :=
  if isRGB then
    if isInterleaved then ⟨[sizeY, sizeX, sizeRGB], buf⟩
    else transpose120 ⟨[sizeRGB, sizeY, sizeX], buf⟩
  else ⟨[sizeY, sizeX], buf⟩

/-! ## pims/bioformats.py: bundle assembly (`BioformatsReader.get_frame`) -/

/-- Everything `BioformatsReader.get_frame` consults: the selected channel
tuple `self._channel`, the active-series sizes, `rdr.getIndex` (maps a
`(z, c, t)` coordinate to a plane index), and the plane source
`self._get_frame` (returns, per plane index, the flat C-order plane data of
`planeSize` entries together with its metadata). -/
structure BioFrameInput (α μ : Type) where
  channels : List Nat
  sizeZ : Nat
  sizeY : Nat
  sizeX : Nat
  sizeRGB : Nat
  isRGB : Bool
  getIndex : Nat → Nat → Nat → Nat
  readPlane : Nat → (Nat → α) × μ
  zero : α

/-- Number of scalar entries of one plane (`(sizeY, sizeX)` or
`(sizeY, sizeX, sizeRGB)`). -/
def planeSize (p : BioFrameInput α μ) : Nat :=
  p.sizeY * p.sizeX * (if p.isRGB then p.sizeRGB else 1)

/-- The allocation shape of `imlist`:
`(len(self._channel), sizeZ, sizeY, sizeX)`, with a trailing `sizeRGB` for
RGB data. -/
def allocShape (p : BioFrameInput α μ) : List Nat :=
  if p.isRGB then [p.channels.length, p.sizeZ, p.sizeY, p.sizeX, p.sizeRGB]
  else [p.channels.length, p.sizeZ, p.sizeY, p.sizeX]

/-- Python `enumerate(l)` as the list of (position, element) pairs. -/
def pyEnumerate (l : List α) (dflt : α) : List (Nat × α) :=
  (List.range l.length).map (fun i => (i, l.getD i dflt))

/-- The iteration order of the assembly loops: for each `(Nc, c)` in
`enumerate(self._channel)`, for each `z` in `range(sizeZ)`, the triple
`(Nc, c, z)` — channel-major, z-fastest. -/
def loopPairs (p : BioFrameInput α μ) : List (Nat × Nat × Nat) :=
  (pyEnumerate p.channels 0).flatMap
    (fun nc => (List.range p.sizeZ).map (fun z => (nc.1, nc.2, z)))

/-- One iteration of the assembly loop body at logical index `t`:
`index = self.get_index(z, c, t); imlist[Nc, z], md = self._get_frame(...);
mdlist.append(md)`.  The accumulator carries the output array, the metadata
list, and (for bookkeeping) the list of `(z, c, t)` coordinates passed to
`get_index`. -/
def bioStep (p : BioFrameInput α μ) (t : Nat)
    (acc : NDArray α × List μ × List (Nat × Nat × Nat))
    (pr : Nat × Nat × Nat) : NDArray α × List μ × List (Nat × Nat × Nat) :=
  let plane := p.readPlane (p.getIndex pr.2.2 pr.2.1 t)
  (⟨acc.1.shape,
    writeBlock acc.1.data ((pr.1 * p.sizeZ + pr.2.2) * planeSize p)
      (planeSize p) plane.1⟩,
   acc.2.1 ++ [plane.2], acc.2.2 ++ [(pr.2.2, pr.2.1, t)])

/-- The assembly loops of `BioformatsReader.get_frame(t)`: allocate
`imlist = np.zeros(shape, dtype=self.pixel_type)` and run the channel/z
double loop.  Returns the filled array, `mdlist`, and the coordinates read. -/
def bioAssemble (p : BioFrameInput α μ) (t : Nat) :
    NDArray α × List μ × List (Nat × Nat × Nat) :=
  (loopPairs p).foldl (bioStep p t) (npZeros (allocShape p) p.zero, [], [])

/-- An assembled frame's metadata value for one key: a scalar when the value
collapsed, otherwise the per-plane list. -/
inductive MetaVal (V : Type) : Type
  | scalar : V → MetaVal V
  | list : List V → MetaVal V
deriving DecidableEq, Repr

/-- The metadata folding of `BioformatsReader.get_frame` for one key:
`metadata[k] = [row[k] for row in mdlist]`, collapsed to its first entry when
`metadata[k][1:] == metadata[k][:-1]`.  (On an empty `mdlist` the source
would raise when reading `mdlist[0]`; the loops always run at least once for
nonempty channels and a positive z size.) -/
def foldOneMeta [DecidableEq V] (vals : List V) : MetaVal V :=
  if vals.drop 1 = vals.dropLast then
    match vals with
    | v :: _ => MetaVal.scalar v
    | [] => MetaVal.list []
  else MetaVal.list vals

/-- The whole metadata fold: per-plane metadata is a mapping from keys to
values; every key is folded as above. -/
def bioFoldMetadata {K V : Type} [DecidableEq V] (mdlist : List (K → V)) :
    K → MetaVal V :=
  fun k => foldOneMeta (mdlist.map (fun row => row k))

/-- `BioformatsReader.get_frame(t)` (array and metadata): the assembled array
is returned squeezed (`imlist.squeeze()`), the metadata folded.  The
`process_func` hook and the `Frame` wrapper are external collaborators. -/
def bio_get_frame {K V : Type} [DecidableEq V] (p : BioFrameInput α (K → V))
    (t : Nat) : NDArray α × (K → MetaVal V) :=
  let r := bioAssemble p t
  (npSqueeze r.1, bioFoldMetadata r.2.1)

instance {ε α : Type} [DecidableEq ε] [DecidableEq α] :
    DecidableEq (Except ε α)
  | Except.ok a, Except.ok b =>
    if h : a = b then isTrue (by rw [h])
    else isFalse (by intro hc; cases hc; exact h rfl)
  | Except.error a, Except.error b =>
    if h : a = b then isTrue (by rw [h])
    else isFalse (by intro hc; cases hc; exact h rfl)
  | Except.ok _, Except.error _ => isFalse (by intro hc; cases hc)
  | Except.error _, Except.ok _ => isFalse (by intro hc; cases hc)

/-- The base offset, in the flat C-order buffer of `imlist`, of the block the
loop iteration `pr = (Nc, c, z)` assigns (`imlist[Nc, z] = ...`). -/
def blockBase (p : BioFrameInput α μ) (pr : Nat × Nat × Nat) : Nat :=
  (pr.1 * p.sizeZ + pr.2.2) * planeSize p

/-- Concrete instantiation used to witness the assembly theorems: one
selected channel, axis sizes `{z: 2, y: 1, x: 1}`, a plane source whose
plane at index `idx` is constantly `1000 * idx + offset`, and the plane
index map `(z, c, t) ↦ z + 10 c + 100 t`. -/
def sampleInput : BioFrameInput Nat (Nat → Nat) :=
  { channels := [0]
    sizeZ := 2
    sizeY := 1
    sizeX := 1
    sizeRGB := 3
    isRGB := false
    getIndex := fun z c t => z + 10 * c + 100 * t
    readPlane := fun idx => (fun q => 1000 * idx + q, fun _ => idx)
    zero := 0 }

/-- Concrete instantiation with a length-1 spatial y axis (sizes
`{c: 2, z: 3, y: 1, x: 5}`), used to exhibit the squeeze behaviour. -/
def squeezeInput : BioFrameInput Nat (Nat → Nat) :=
  { channels := [0, 1]
    sizeZ := 3
    sizeY := 1
    sizeX := 5
    sizeRGB := 3
    isRGB := false
    getIndex := fun z c t => z + 10 * c + 100 * t
    readPlane := fun idx => (fun q => 1000 * idx + q, fun _ => idx)
    zero := 0 }

/-- Concrete instantiation whose plane metadata is the constant 7 for every
key, used to witness the scalar-collapse branch of the metadata fold. -/
def constMetaInput : BioFrameInput Nat (Nat → Nat) :=
  { channels := [0, 1]
    sizeZ := 3
    sizeY := 1
    sizeX := 1
    sizeRGB := 3
    isRGB := false
    getIndex := fun z c t => z + 10 * c + 100 * t
    readPlane := fun idx => (fun q => 1000 * idx + q, fun _ => 7)
    zero := 0 }

/-- Concrete per-series reports used to witness the series bookkeeping:
series `k` has T size `4 + k`, Z size `5 + k`, and so on. -/
def sampleRdr : Int → SeriesInfo := fun k =>
  { isRGB := false
    sizeRGB := 1
    isInterleaved := false
    sizeT := (4 + k).toNat
    sizeZ := (5 + k).toNat
    sizeY := (6 + k).toNat
    sizeX := (7 + k).toNat
    sizeC := (2 + k).toNat
    imageCount := ((4 + k) * (5 + k) * (2 + k)).toNat
    pixelTypeCode := "u2"
    littleEndian := true }

/-- A reader state for series 0 of `sampleRdr`, as `_change_series` would
leave it. -/
def sampleState : RawState :=
  change_series sampleRdr none
    { series := 0, isRGB := false, sizeRGB := 0, isInterleaved := false
      sizeT := 0, sizeZ := 0, sizeY := 0, sizeX := 0, sizeC := 0
      firstFrameShape := [], planes := 0, sourceDtype := "", pixelType := "" }

/-! ## Helper lemmas -/

theorem range_map_getD (l : List α) (d : α) :
    (List.range l.length).map (fun i => l.getD i d) = l := by
  apply List.ext_getElem
  · simp
  · intro n h₁ h₂
    simp only [List.getElem_map, List.getElem_range]
    exact List.getD_eq_getElem l d h₂

theorem loopPairs_map (p : BioFrameInput α μ) (g : Nat → Nat → γ) :
    (loopPairs p).map (fun pr => g pr.2.2 pr.2.1) =
      p.channels.flatMap (fun c => (List.range p.sizeZ).map (fun z => g z c)) := by
  conv_rhs => rw [← range_map_getD p.channels 0]
  unfold loopPairs pyEnumerate
  rw [List.map_flatMap, List.flatMap_map, List.flatMap_map]
  simp only [List.map_map]
  rfl

theorem bioFoldl_shape (p : BioFrameInput α μ) (t : Nat)
    (L : List (Nat × Nat × Nat))
    (init : NDArray α × List μ × List (Nat × Nat × Nat)) :
    (L.foldl (bioStep p t) init).1.shape = init.1.shape := by
  induction L generalizing init with
  | nil => rfl
  | cons q L ih => simpa [bioStep] using ih (bioStep p t init q)

theorem bioFoldl_mds (p : BioFrameInput α μ) (t : Nat)
    (L : List (Nat × Nat × Nat))
    (init : NDArray α × List μ × List (Nat × Nat × Nat)) :
    (L.foldl (bioStep p t) init).2.1 =
      init.2.1 ++ L.map (fun pr => (p.readPlane (p.getIndex pr.2.2 pr.2.1 t)).2) := by
  induction L generalizing init with
  | nil => simp
  | cons q L ih =>
    rw [List.foldl_cons, ih (bioStep p t init q), List.map_cons]
    simp [bioStep]

theorem bioFoldl_calls (p : BioFrameInput α μ) (t : Nat)
    (L : List (Nat × Nat × Nat))
    (init : NDArray α × List μ × List (Nat × Nat × Nat)) :
    (L.foldl (bioStep p t) init).2.2 =
      init.2.2 ++ L.map (fun pr => (pr.2.2, pr.2.1, t)) := by
  induction L generalizing init with
  | nil => simp
  | cons q L ih =>
    rw [List.foldl_cons, ih (bioStep p t init q), List.map_cons]
    simp [bioStep]

theorem bioFoldl_data_of_forall_not (p : BioFrameInput α μ) (t : Nat)
    (L : List (Nat × Nat × Nat))
    (init : NDArray α × List μ × List (Nat × Nat × Nat)) (n : Nat)
    (hn : ∀ pr ∈ L, ¬ (blockBase p pr ≤ n ∧ n < blockBase p pr + planeSize p)) :
    (L.foldl (bioStep p t) init).1.data n = init.1.data n := by
  induction L generalizing init with
  | nil => rfl
  | cons q L ih =>
    rw [List.foldl_cons,
      ih (bioStep p t init q) (fun pr h => hn pr (List.mem_cons_of_mem q h))]
    have hq := hn q (List.mem_cons_self q L)
    simp only [bioStep, writeBlock, blockBase] at hq ⊢
    simp [if_neg hq]

theorem bioFoldl_data_unique (p : BioFrameInput α μ) (t : Nat)
    (L : List (Nat × Nat × Nat))
    (init : NDArray α × List μ × List (Nat × Nat × Nat)) (n : Nat) (v : α)
    (hex : ∃ pr ∈ L, blockBase p pr ≤ n ∧ n < blockBase p pr + planeSize p)
    (hval : ∀ pr ∈ L, blockBase p pr ≤ n ∧ n < blockBase p pr + planeSize p →
      (p.readPlane (p.getIndex pr.2.2 pr.2.1 t)).1 (n - blockBase p pr) = v) :
    (L.foldl (bioStep p t) init).1.data n = v := by
  induction L generalizing init with
  | nil => simp at hex
  | cons q L ih =>
    by_cases h : ∃ pr ∈ L, blockBase p pr ≤ n ∧ n < blockBase p pr + planeSize p
    · exact ih (bioStep p t init q) h
        (fun pr hpr hb => hval pr (List.mem_cons_of_mem q hpr) hb)
    · push_neg at h
      have hq : blockBase p q ≤ n ∧ n < blockBase p q + planeSize p := by
        rcases hex with ⟨pr, hpr, hb⟩
        rcases List.mem_cons.mp hpr with rfl | hpr'
        · exact hb
        · exact absurd hb.2 (by
            have := h pr hpr' hb.1
            omega)
      rw [List.foldl_cons, bioFoldl_data_of_forall_not p t L (bioStep p t init q) n
        (fun pr hpr => by
          intro hb
          exact absurd hb.2 (by have := h pr hpr hb.1; omega))]
      have hval_q := hval q (List.mem_cons_self q L) hq
      simp only [bioStep, writeBlock, blockBase] at hq ⊢
      rw [if_pos hq]
      exact hval_q

theorem mem_loopPairs (p : BioFrameInput α μ) (pr : Nat × Nat × Nat) :
    pr ∈ loopPairs p ↔
      pr.1 < p.channels.length ∧ pr.2.1 = p.channels.getD pr.1 0 ∧
        pr.2.2 < p.sizeZ := by
  unfold loopPairs pyEnumerate
  simp only [List.mem_flatMap, List.mem_map, List.mem_range]
  constructor
  · rintro ⟨nc, ⟨i, hi, rfl⟩, z, hz, rfl⟩
    exact ⟨hi, rfl, hz⟩
  · rintro ⟨h1, h2, h3⟩
    exact ⟨(pr.1, p.channels.getD pr.1 0), ⟨pr.1, h1, rfl⟩, pr.2.2, h3, by
      rw [← h2]⟩

theorem all_eq_of_drop_one_eq_dropLast {l : List α}
    (h : l.drop 1 = l.dropLast) : ∀ a ∈ l, ∀ b ∈ l, a = b := by
  induction l with
  | nil => intro a ha; simp at ha
  | cons x l ih =>
    cases l with
    | nil => intro a ha b hb; simp at ha hb; rw [ha, hb]
    | cons y l =>
      have hx : x = y ∧ (y :: l).drop 1 = (y :: l).dropLast := by
        simp only [List.drop_one, List.tail_cons] at h
        rw [List.dropLast_cons₂] at h
        injection h with h1 h2
        exact ⟨h1.symm, by rw [List.drop_one, List.tail_cons]; exact h2⟩
      intro a ha b hb
      have hall := ih hx.2
      rcases List.mem_cons.mp ha with rfl | ha'
      · rcases List.mem_cons.mp hb with rfl | hb'
        · rfl
        · rw [hx.1]; exact hall _ (List.mem_cons_self y l) _ hb'
      · rcases List.mem_cons.mp hb with rfl | hb'
        · rw [hx.1]; exact hall _ ha' _ (List.mem_cons_self y l)
        · exact hall _ ha' _ hb'

theorem drop_one_eq_dropLast_of_all_eq {l : List α} {v : α}
    (h : ∀ b ∈ l, b = v) : l.drop 1 = l.dropLast := by
  rw [List.eq_replicate_of_mem h, List.drop_replicate, List.dropLast_replicate]

theorem foldl_max_range (N : Nat) : (List.range N).foldl Nat.max 0 = N - 1 := by
  induction N with
  | zero => rfl
  | succ n ih =>
    rw [List.range_succ, List.foldl_append, ih]
    simp only [List.foldl_cons, List.foldl_nil, Nat.max_def]
    split <;> omega

theorem findIdx_getD_eq_find (dims : List (String × List Char)) (col : String) :
    (match (dims.map Prod.fst).findIdx? (fun a => a == col) with
      | some k => digitsToNat (dims.getD k ("", [])).2
      | none => 0) = c9_position_value dims col := by
  induction dims with
  | nil => rfl
  | cons d rest ih =>
    cases hdd : (d.1 == col) with
    | true =>
      rw [show c9_position_value (d :: rest) col = digitsToNat d.2 by
        unfold c9_position_value
        rw [List.find?_cons_of_pos _ (by simpa using hdd)]]
      rw [List.map_cons, List.findIdx?_cons]
      simp [hdd]
    | false =>
      rw [show c9_position_value (d :: rest) col = c9_position_value rest col by
        unfold c9_position_value
        rw [List.find?_cons_of_neg _ (by simp [hdd])]]
      rw [← ih, List.map_cons, List.findIdx?_cons]
      simp only [hdd, Bool.false_eq_true, if_false, List.findIdx?_succ]
      cases hfi : (rest.map Prod.fst).findIdx? (fun a => a == col) with
      | none => rfl
      | some k => simp [List.getD_cons_succ]

theorem foldOneMeta_scalar {V : Type} [DecidableEq V] (vals : List V) (v : V)
    (hne : vals ≠ []) (hall : ∀ w ∈ vals, w = v) :
    foldOneMeta vals = MetaVal.scalar v := by
  unfold foldOneMeta
  rw [if_pos (drop_one_eq_dropLast_of_all_eq hall)]
  cases vals with
  | nil => exact absurd rfl hne
  | cons w rest => exact congrArg _ (hall w (List.mem_cons_self w rest))

theorem foldOneMeta_list {V : Type} [DecidableEq V] (vals : List V)
    (w₁ w₂ : V) (h1 : w₁ ∈ vals) (h2 : w₂ ∈ vals) (hne : w₁ ≠ w₂) :
    foldOneMeta vals = MetaVal.list vals := by
  unfold foldOneMeta
  rw [if_neg]
  intro hd
  exact hne (all_eq_of_drop_one_eq_dropLast hd w₁ h1 w₂ h2)

/-! ## Claim theorems -/

/-- C10: for a ZVI file whose OLE streams hold image items numbered
`Item(0)` through `Item(N-1)`, `len(reader)` is the maximum item number
`N - 1` rather than the item count `N`, so the last stored image sits at
index `len(reader)` itself, outside the usual `[0, len)` convention. -/
theorem c10_zvi_len_is_max_item_number (streams : List (List String)) (N : Nat)
    (hN : 1 ≤ N) (htoc : zviToc streams = List.range N) :
    zviLen streams = N - 1 ∧ (zviToc streams).length = N ∧
      zviLen streams ≠ N ∧ ¬ (N - 1 < zviLen streams) := by
  have hlen : zviLen streams = N - 1 := by
    unfold zviLen
    rw [htoc]
    exact foldl_max_range N
  exact ⟨hlen, by rw [htoc]; simp, by omega, by omega⟩

theorem c10_witness :
    zviLen [["Image", "Item(0)"], ["Image", "Item(1)"], ["Image", "Item(2)"]] =
        3 - 1 ∧
      (zviToc [["Image", "Item(0)"], ["Image", "Item(1)"],
          ["Image", "Item(2)"]]).length = 3 ∧
      zviLen [["Image", "Item(0)"], ["Image", "Item(1)"], ["Image", "Item(2)"]]
        ≠ 3 ∧
      ¬ (3 - 1 < zviLen [["Image", "Item(0)"], ["Image", "Item(1)"],
          ["Image", "Item(2)"]]) :=
  c10_zvi_len_is_max_item_number
    [["Image", "Item(0)"], ["Image", "Item(1)"], ["Image", "Item(2)"]] 3
    (by decide) (by decide)

/-- C5 counterexample: with one file, `get_frame(2)` raises `ValueError`
(not an `IndexError`-class error as the claim states), and `get_frame(-1)`
does not fail at all although `-1` is outside `[0, N)`. -/
theorem c5_counterexample :
    isq_get_frame ["a"] 1 2 = Except.error PyErr.valueError ∧
      (Except.error PyErr.valueError : Except PyErr String) ≠
        Except.error PyErr.indexError ∧
      isq_get_frame ["a"] 1 (-1) = Except.ok "a" := by decide

/-- C5 (amended): `BaseImageSequence.get_frame(j)` fails for every
`j >= N = len(self._filepaths)`, but with `ValueError` when `j > N` (the
explicit guard) and with `IndexError` only when `j = N` (the guard passes
and the list indexing itself fails). -/
theorem c5_get_frame_out_of_range (filepaths : List String) (j : Int)
    (hj : (filepaths.length : Int) ≤ j) :
    isq_get_frame filepaths filepaths.length j =
      Except.error
        (if (filepaths.length : Int) < j then PyErr.valueError
          else PyErr.indexError) := by
  unfold isq_get_frame
  by_cases h : (filepaths.length : Int) < j
  · rw [if_pos h, if_pos h]
  · rw [if_neg h, if_neg h]
    have hj' : j = (filepaths.length : Int) := le_antisymm (not_lt.mp h) hj
    unfold pyListGet
    have h0 : ¬ j < 0 := by omega
    dsimp only
    split
    · rename_i hcond
      exact absurd hcond h0
    · rw [dif_neg (by omega)]

theorem c5_witness :
    ((["a"].length : Int) ≤ 2 ∧
        isq_get_frame ["a"] (["a"].length) 2 =
          Except.error
            (if ((["a"].length : Int) < 2) then PyErr.valueError
              else PyErr.indexError)) ∧
      ((["a"].length : Int) ≤ 1 ∧
        isq_get_frame ["a"] (["a"].length) 1 =
          Except.error
            (if ((["a"].length : Int) < 1) then PyErr.valueError
              else PyErr.indexError)) :=
  ⟨⟨by decide, c5_get_frame_out_of_range ["a"] 2 (by decide)⟩,
    ⟨by decide, c5_get_frame_out_of_range ["a"] 1 (by decide)⟩⟩

/-- C8: file discovery orders paths by the natural-order key: the example
list sorts as `img1 < img2 < img10`; every branch of `_get_files`
(iterable, zipfile, directory, glob) applies the very same
`sorted(..., key=natural_keys)`; and the sort only reorders (the output is
a permutation of the input). -/
theorem c8_natural_order_sorting :
    naturalSort ["img2.png", "img10.png", "img1.png"] =
        ["img1.png", "img2.png", "img10.png"] ∧
      (∀ ps : List String, (get_files_iterable ps).1 = naturalSort ps) ∧
      (∀ nl : List String, ∀ f : String → Bool,
        (get_files_zip nl f).1 = naturalSort (nl.filter f)) ∧
      (∀ fns : List String, ∀ mk : String → String,
        (get_files_dir fns mk).1 = naturalSort (fns.map mk)) ∧
      (∀ g : List String, (get_files_glob g).1 = naturalSort g) ∧
      (∀ l : List String, (naturalSort l).Perm l) :=
  ⟨by decide, fun _ => rfl, fun _ _ => rfl, fun _ _ => rfl, fun _ => rfl,
    fun l => List.perm_insertionSort naturalLE l⟩

/-- C9 counterexample: in `"t1t2"` the identifier `t` occurs twice; the
source takes the integer after the *first* occurrence (`order.index` finds
the first match), so the result is `[1, 0, 0]`, not the `[2, 0, 0]` that
"after the last occurrence" would give. -/
theorem c9_counterexample :
    filename_to_indices "t1t2" ["t", "z", "c"] = [1, 0, 0] ∧
      filename_to_indices "t1t2" ["t", "z", "c"] ≠ [2, 0, 0] := by decide

/-- C9 (amended): `filename_to_indices` always returns exactly one
non-negative integer per identifier (it never raises); position `i` holds
the integer of the *first* retained match for identifier `i` — the match
list being truncated to its last three entries when it has more matches
than identifiers — and 0 when that identifier has no retained match. -/
theorem c9_filename_to_indices (filename : String) (identifiers : List String) :
    (filename_to_indices filename identifiers).length = identifiers.length ∧
      ∀ i, ∀ h : i < identifiers.length,
        ∀ h2 : i < (filename_to_indices filename identifiers).length,
        (filename_to_indices filename identifiers).get ⟨i, h2⟩ =
          c9_position_value (retainedMatches filename identifiers)
            (identifiers.get ⟨i, h⟩) := by
  constructor
  · unfold filename_to_indices
    exact List.length_map identifiers _
  · intro i h h2
    unfold filename_to_indices at h2 ⊢
    simp only [List.get_eq_getElem, List.getElem_map]
    exact findIdx_getD_eq_find (retainedMatches filename identifiers)
      (identifiers.get ⟨i, h⟩)

theorem c9_witness :
    (filename_to_indices "file_t001c05z32" ["t", "z", "c"]).length =
        (["t", "z", "c"] : List String).length ∧
      (filename_to_indices "file_t001c05z32" ["t", "z", "c"]).get
          ⟨1, by decide⟩ =
        c9_position_value (retainedMatches "file_t001c05z32" ["t", "z", "c"])
          ((["t", "z", "c"] : List String).get ⟨1, by decide⟩) :=
  ⟨(c9_filename_to_indices "file_t001c05z32" ["t", "z", "c"]).1,
    (c9_filename_to_indices "file_t001c05z32" ["t", "z", "c"]).2 1 (by decide)
      (by decide)⟩

/-- C6: assigning the `series` property is validated immediately and
atomically: any index outside `[0, series count)` raises `IndexError` at the
assignment (the model returns the error; the Python object is untouched),
while a valid new index stores the series and reruns `_change_series`, which
re-derives every axis size, the pixel type and the frame shape from the
reader before any subsequent read. -/
theorem c6_series_setter (rdr : Int → SeriesInfo) (forced : Option String)
    (sizeSeries : Nat) (s : RawState) (value : Int)
    (h0 : 0 ≤ value) (h1 : value < (sizeSeries : Int)) (hne : value ≠ s.series) :
    (∀ w : Int, ((sizeSeries : Int) ≤ w ∨ w < 0) →
        set_series rdr forced sizeSeries s w = Except.error PyErr.indexError) ∧
      ∃ s', set_series rdr forced sizeSeries s value = Except.ok s' ∧
        s'.series = value ∧
        s'.sizeT = (rdr value).sizeT ∧ s'.sizeZ = (rdr value).sizeZ ∧
        s'.sizeY = (rdr value).sizeY ∧ s'.sizeX = (rdr value).sizeX ∧
        s'.sizeC = (if (rdr value).isRGB then 1 else (rdr value).sizeC) ∧
        s'.pixelType = forced.getD
          ((if (rdr value).littleEndian then "<" else ">") ++
            (rdr value).pixelTypeCode) ∧
        s'.firstFrameShape = (if (rdr value).isRGB then
            [(rdr value).sizeY, (rdr value).sizeX, (rdr value).sizeRGB]
          else [(rdr value).sizeY, (rdr value).sizeX]) ∧
        s'.planes = (rdr value).imageCount := by
  constructor
  · intro w hw
    unfold set_series
    rw [if_pos hw]
  · refine ⟨change_series rdr forced { s with series := value }, ?_, ?_⟩
    · unfold set_series
      rw [if_neg (by omega), if_pos hne]
    · unfold change_series
      refine ⟨rfl, rfl, rfl, rfl, rfl, rfl, rfl, rfl, rfl⟩

theorem c6_witness :
    ∃ s', set_series sampleRdr none 2 sampleState 1 = Except.ok s' ∧
      s'.series = 1 ∧
      s'.sizeT = (sampleRdr 1).sizeT ∧ s'.sizeZ = (sampleRdr 1).sizeZ ∧
      s'.sizeY = (sampleRdr 1).sizeY ∧ s'.sizeX = (sampleRdr 1).sizeX ∧
      s'.sizeC = (if (sampleRdr 1).isRGB then 1 else (sampleRdr 1).sizeC) ∧
      s'.pixelType = Option.getD none
        ((if (sampleRdr 1).littleEndian then "<" else ">") ++
          (sampleRdr 1).pixelTypeCode) ∧
      s'.firstFrameShape = (if (sampleRdr 1).isRGB then
          [(sampleRdr 1).sizeY, (sampleRdr 1).sizeX, (sampleRdr 1).sizeRGB]
        else [(sampleRdr 1).sizeY, (sampleRdr 1).sizeX]) ∧
      s'.planes = (sampleRdr 1).imageCount :=
  (c6_series_setter sampleRdr none 2 sampleState 1 (by decide) (by decide)
    (by decide)).2

/-- C4: the logical sequence length is the product of the iteration-axis
sizes (empty product = 1, first conjunct); `BioformatsReader.__len__` is the
active series' T size, which equals that product for the sole iteration axis
`T` (second and third conjuncts); and the length is re-derived whenever the
active series changes through the `series` setter (last conjunct). -/
theorem c4_len_is_iter_axis_product (rdr : Int → SeriesInfo)
    (forced : Option String) (sizeSeries : Nat) (s : RawState) (value : Int)
    (h0 : 0 ≤ value) (h1 : value < (sizeSeries : Int)) (hne : value ≠ s.series) :
    (∀ sizes : String → Nat, logicalLength sizes [] = 1) ∧
      bioformatsLen (change_series rdr forced s) = (rdr s.series).sizeT ∧
      bioformatsLen (change_series rdr forced s) =
        logicalLength (rawSizes sizeSeries (change_series rdr forced s)) ["T"] ∧
      ∀ s', set_series rdr forced sizeSeries s value = Except.ok s' →
        bioformatsLen s' = (rdr value).sizeT := by
  refine ⟨fun sizes => rfl, rfl, ?_, ?_⟩
  · show (rdr s.series).sizeT = (rdr s.series).sizeT * 1
    rw [Nat.mul_one]
  · intro s' hs'
    unfold set_series at hs'
    rw [if_neg (by omega), if_pos hne] at hs'
    injection hs' with hs'
    rw [← hs']
    rfl

theorem c4_witness :
    bioformatsLen (change_series sampleRdr none sampleState) =
        (sampleRdr sampleState.series).sizeT ∧
      bioformatsLen (change_series sampleRdr none sampleState) =
        logicalLength (rawSizes 2 (change_series sampleRdr none sampleState))
          ["T"] :=
  ⟨(c4_len_is_iter_axis_product sampleRdr none 2 sampleState 1 (by decide)
      (by decide) (by decide)).2.1,
    (c4_len_is_iter_axis_product sampleRdr none 2 sampleState 1 (by decide)
      (by decide) (by decide)).2.2.1⟩

/-- C7: every plane `_get_frame` produces has its first two dimensions equal
to `(sizeY, sizeX)`, with per-pixel channel samples in a trailing third
dimension: non-RGB planes are `(sizeY, sizeX)`; interleaved RGB planes are
`(sizeY, sizeX, sizeRGB)` with the buffer read in interleaved order; planar
RGB planes are reshaped `(sizeRGB, sizeY, sizeX)` and transposed so that the
element at `(y, x, c)` is the buffer entry `c * sizeY * sizeX + y * sizeX + x`
— channels become the innermost dimension. -/
theorem c7_plane_shape {α : Type} (isInterleaved : Bool)
    (sizeY sizeX sizeRGB : Nat) (buf bufP : Nat → α) (y x c : Nat)
    (hy : y < sizeY) (hx : x < sizeX) (hc : c < sizeRGB) :
    (raw_get_frame_image false isInterleaved sizeY sizeX sizeRGB buf).shape =
        [sizeY, sizeX] ∧
      (raw_get_frame_image true true sizeY sizeX sizeRGB buf).shape =
        [sizeY, sizeX, sizeRGB] ∧
      (raw_get_frame_image true false sizeY sizeX sizeRGB bufP).shape =
        [sizeY, sizeX, sizeRGB] ∧
      (raw_get_frame_image true true sizeY sizeX sizeRGB buf).data
          (y * (sizeX * sizeRGB) + x * sizeRGB + c) =
        buf ((y * sizeX + x) * sizeRGB + c) ∧
      (raw_get_frame_image true false sizeY sizeX sizeRGB bufP).data
          (y * (sizeX * sizeRGB) + x * sizeRGB + c) =
        bufP (c * (sizeY * sizeX) + y * sizeX + x) := by
  have hXR : 0 < sizeX * sizeRGB := Nat.mul_pos (by omega) (by omega)
  have hb : x * sizeRGB + c < sizeX * sizeRGB := by
    have h1 : x * sizeRGB + c < (x + 1) * sizeRGB := by
      rw [Nat.add_mul, Nat.one_mul]
      omega
    have h2 : (x + 1) * sizeRGB ≤ sizeX * sizeRGB :=
      Nat.mul_le_mul_right sizeRGB (by omega)
    omega
  refine ⟨rfl, rfl, rfl, congrArg buf (by ring), ?_⟩
  show bufP
      (((y * (sizeX * sizeRGB) + x * sizeRGB + c) % (sizeX * sizeRGB) % sizeRGB)
          * (sizeY * sizeX) +
        (y * (sizeX * sizeRGB) + x * sizeRGB + c) / (sizeX * sizeRGB) * sizeX +
        (y * (sizeX * sizeRGB) + x * sizeRGB + c) % (sizeX * sizeRGB) / sizeRGB)
      = bufP (c * (sizeY * sizeX) + y * sizeX + x)
  have hdiv : (y * (sizeX * sizeRGB) + x * sizeRGB + c) / (sizeX * sizeRGB) = y := by
    rw [Nat.add_assoc, Nat.mul_comm y (sizeX * sizeRGB), Nat.mul_add_div hXR,
      Nat.div_eq_of_lt hb, Nat.add_zero]
  have hmod : (y * (sizeX * sizeRGB) + x * sizeRGB + c) % (sizeX * sizeRGB) =
      x * sizeRGB + c := by
    rw [Nat.add_assoc, Nat.mul_comm y (sizeX * sizeRGB), Nat.mul_add_mod,
      Nat.mod_eq_of_lt hb]
  rw [hdiv, hmod]
  have hmod2 : (x * sizeRGB + c) % sizeRGB = c := by
    rw [Nat.mul_comm x sizeRGB, Nat.mul_add_mod, Nat.mod_eq_of_lt hc]
  have hdiv2 : (x * sizeRGB + c) / sizeRGB = x := by
    rw [Nat.mul_comm x sizeRGB, Nat.mul_add_div (by omega), Nat.div_eq_of_lt hc,
      Nat.add_zero]
  rw [hmod2, hdiv2]

theorem c7_witness :
    (0 < 2 ∧ 1 < 3 ∧ 1 < 4) ∧
      (raw_get_frame_image false false 2 3 4 (fun n => n) : NDArray Nat).shape
          = [2, 3] ∧
      (raw_get_frame_image true false 2 3 4 (fun n => n) : NDArray Nat).data
          (0 * (3 * 4) + 1 * 4 + 1) = (1 * (2 * 3) + 0 * 3 + 1) := by
  refine ⟨⟨by decide, by decide, by decide⟩, ?_, ?_⟩
  · exact (c7_plane_shape false 2 3 4 (fun n => n) (fun n => n) 0 1 1
      (by decide) (by decide) (by decide)).1
  · exact (c7_plane_shape false 2 3 4 (fun n => n) (fun n => n) 0 1 1
      (by decide) (by decide) (by decide)).2.2.2.2

theorem bioAssemble_shape (p : BioFrameInput α μ) (t : Nat) :
    (bioAssemble p t).1.shape = allocShape p := by
  unfold bioAssemble
  rw [bioFoldl_shape]
  rfl

/-- C2 counterexample: with sizes `{c: 2, z: 3, y: 1, x: 5}` the assembled
frame is allocated as `(2, 3, 1, 5)`, but the returned shape is `(2, 3, 5)`:
`imlist.squeeze()` removed the length-1 spatial y dimension, contradicting
the claim that the spatial dimensions are never squeezed. -/
theorem c2_counterexample :
    (bio_get_frame squeezeInput 1).1.shape = [2, 3, 5] ∧
      allocShape squeezeInput = [2, 3, 1, 5] ∧
      ([2, 3, 5] : List Nat) ≠ [2, 3, 1, 5] := by decide

/-- C2 (amended): the returned frame's shape is the allocation shape with
*every* length-1 dimension removed — `imlist.squeeze()` squeezes length-1
bundle dimensions and length-1 spatial dimensions alike — so no length-1
dimension ever survives in the returned shape. -/
theorem c2_squeeze_drops_all_singleton_dims {α K V : Type} [DecidableEq V]
    (p : BioFrameInput α (K → V)) (t : Nat) :
    (bio_get_frame p t).1.shape =
        (allocShape p).filter (fun d => d != 1) ∧
      ¬ 1 ∈ (bio_get_frame p t).1.shape := by
  have hshape : (bio_get_frame p t).1.shape =
      (allocShape p).filter (fun d => d != 1) := by
    show (npSqueeze (bioAssemble p t).1).shape = _
    unfold npSqueeze
    rw [bioAssemble_shape]
  refine ⟨hshape, ?_⟩
  rw [hshape]
  intro hmem
  have hq := (List.mem_filter.mp hmem).2
  simp at hq

/-- C1: `BioformatsReader.get_frame(t)` allocates an output array of shape
`(len(self._channel), sizeZ, sizeY, sizeX)` and, for every selected-channel
position `Nc` and every `z`, fills slice `[Nc, z]` with exactly the plane the
plane source returns for the plane index `get_index(z, c, t)` of coordinate
`(z, c, t)` with `c` the selected channel at position `Nc`; the coordinates
passed to `get_index` are exactly the channel-major, z-fastest grid at the
requested `t` (so with `sizeZ = 2` and one channel, frame `t = 1` is
assembled from reads at `(z=0, t=1)` and `(z=1, t=1)`). -/
theorem c1_bundle_assembly {α μ : Type} (p : BioFrameInput α μ) (t Nc z q : Nat)
    (hNc : Nc < p.channels.length) (hz : z < p.sizeZ) (hq : q < planeSize p) :
    (bioAssemble p t).1.shape = allocShape p ∧
      (bioAssemble p t).1.data ((Nc * p.sizeZ + z) * planeSize p + q) =
        (p.readPlane (p.getIndex z (p.channels.get ⟨Nc, hNc⟩) t)).1 q ∧
      (bioAssemble p t).2.2 =
        p.channels.flatMap
          (fun c => (List.range p.sizeZ).map (fun z' => (z', c, t))) := by
  refine ⟨bioAssemble_shape p t, ?_, ?_⟩
  · unfold bioAssemble
    apply bioFoldl_data_unique
    · refine ⟨(Nc, p.channels.getD Nc 0, z),
        (mem_loopPairs p (Nc, p.channels.getD Nc 0, z)).mpr ⟨hNc, rfl, hz⟩, ?_⟩
      simp only [blockBase]
      omega
    · intro pr hpr hb
      simp only [blockBase] at hb
      obtain ⟨h1, h2, h3⟩ := (mem_loopPairs p pr).mp hpr
      have e1 : ((Nc * p.sizeZ + z) * planeSize p + q) / planeSize p =
          Nc * p.sizeZ + z := by
        apply Nat.div_eq_of_lt_le
        · omega
        · rw [Nat.succ_mul]
          omega
      have e2 : ((Nc * p.sizeZ + z) * planeSize p + q) / planeSize p =
          pr.1 * p.sizeZ + pr.2.2 := by
        apply Nat.div_eq_of_lt_le
        · exact hb.1
        · rw [Nat.succ_mul]
          omega
      have ekey : pr.1 * p.sizeZ + pr.2.2 = Nc * p.sizeZ + z := e2.symm.trans e1
      have ez : pr.2.2 = z := by
        have m1 : (pr.1 * p.sizeZ + pr.2.2) % p.sizeZ = pr.2.2 := by
          rw [Nat.mul_comm pr.1 p.sizeZ, Nat.mul_add_mod, Nat.mod_eq_of_lt h3]
        have m2 : (Nc * p.sizeZ + z) % p.sizeZ = z := by
          rw [Nat.mul_comm Nc p.sizeZ, Nat.mul_add_mod, Nat.mod_eq_of_lt hz]
        rw [← m1, ekey, m2]
      have eNc : pr.1 = Nc := by
        have hmul : pr.1 * p.sizeZ = Nc * p.sizeZ := by omega
        exact Nat.eq_of_mul_eq_mul_right (by omega) hmul
      have hc : pr.2.1 = p.channels.get ⟨Nc, hNc⟩ := by
        rw [h2, eNc, List.getD_eq_getElem p.channels 0 hNc]
        rfl
      simp only [blockBase]
      rw [ez, eNc, hc]
      exact congrArg _ (by omega)
  · unfold bioAssemble
    rw [bioFoldl_calls, List.nil_append]
    exact loopPairs_map p (fun z' c => (z', c, t))

theorem c1_witness :
    (bioAssemble sampleInput 1).1.shape = allocShape sampleInput ∧
      (bioAssemble sampleInput 1).1.data
          ((0 * sampleInput.sizeZ + 1) * planeSize sampleInput + 0) =
        (sampleInput.readPlane
            (sampleInput.getIndex 1 (sampleInput.channels.get ⟨0, by decide⟩) 1)).1
          0 ∧
      (bioAssemble sampleInput 1).2.2 =
        sampleInput.channels.flatMap
          (fun c => (List.range sampleInput.sizeZ).map (fun z' => (z', c, 1))) :=
  c1_bundle_assembly sampleInput 1 0 1 0 (by decide) (by decide) (by decide)

theorem bioAssemble_mds {α μ : Type} (p : BioFrameInput α μ) (t : Nat) :
    (bioAssemble p t).2.1 =
      (loopPairs p).map
        (fun pr => (p.readPlane (p.getIndex pr.2.2 pr.2.1 t)).2) := by
  unfold bioAssemble
  rw [bioFoldl_mds, List.nil_append]

/-- C3: for every metadata key of the plane source, the assembled frame's
folded metadata is a scalar when every bundle combination (selected channel
crossed with z) reports the same value, and otherwise is the per-combination
value list in channel-major, z-fastest bundle-grid order. -/
theorem c3_metadata_folding {α K V : Type} [DecidableEq V]
    (p : BioFrameInput α (K → V)) (t : Nat) (k : K)
    (hch : p.channels ≠ []) (hz : 0 < p.sizeZ) :
    (∀ v : V, (∀ c ∈ p.channels, ∀ z : Nat, z < p.sizeZ →
        (p.readPlane (p.getIndex z c t)).2 k = v) →
      (bio_get_frame p t).2 k = MetaVal.scalar v) ∧
      ((∃ c₁ ∈ p.channels, ∃ z₁ : Nat, z₁ < p.sizeZ ∧ ∃ c₂ ∈ p.channels,
          ∃ z₂ : Nat, z₂ < p.sizeZ ∧
            (p.readPlane (p.getIndex z₁ c₁ t)).2 k ≠
              (p.readPlane (p.getIndex z₂ c₂ t)).2 k) →
        (bio_get_frame p t).2 k = MetaVal.list
          (p.channels.flatMap (fun c => (List.range p.sizeZ).map
            (fun z => (p.readPlane (p.getIndex z c t)).2 k)))) := by
  have hvals : (bioAssemble p t).2.1.map (fun row => row k) =
      p.channels.flatMap (fun c => (List.range p.sizeZ).map
        (fun z => (p.readPlane (p.getIndex z c t)).2 k)) := by
    rw [bioAssemble_mds, List.map_map]
    exact loopPairs_map p (fun z c => (p.readPlane (p.getIndex z c t)).2 k)
  have hmem : ∀ c ∈ p.channels, ∀ z : Nat, z < p.sizeZ →
      (p.readPlane (p.getIndex z c t)).2 k ∈
        (bioAssemble p t).2.1.map (fun row => row k) := by
    intro c hc z hzz
    rw [hvals]
    rw [List.mem_flatMap]
    exact ⟨c, hc, List.mem_map.mpr ⟨z, List.mem_range.mpr hzz, rfl⟩⟩
  have hne : (bioAssemble p t).2.1.map (fun row => row k) ≠ [] := by
    obtain ⟨c₀, hc₀⟩ := List.exists_mem_of_ne_nil p.channels hch
    exact List.ne_nil_of_mem (hmem c₀ hc₀ 0 hz)
  have hshow : (bio_get_frame p t).2 k =
      foldOneMeta ((bioAssemble p t).2.1.map (fun row => row k)) := rfl
  constructor
  · intro v hv
    rw [hshow]
    apply foldOneMeta_scalar _ v hne
    intro w hw
    rw [hvals] at hw
    rw [List.mem_flatMap] at hw
    obtain ⟨c, hc, hw⟩ := hw
    rw [List.mem_map] at hw
    obtain ⟨z, hzz, rfl⟩ := hw
    exact hv c hc z (List.mem_range.mp hzz)
  · rintro ⟨c₁, hc₁, z₁, hz₁, c₂, hc₂, z₂, hz₂, hdiff⟩
    rw [hshow]
    rw [show (p.channels.flatMap (fun c => (List.range p.sizeZ).map
        (fun z => (p.readPlane (p.getIndex z c t)).2 k))) =
      (bioAssemble p t).2.1.map (fun row => row k) from hvals.symm]
    exact foldOneMeta_list _ _ _ (hmem c₁ hc₁ z₁ hz₁) (hmem c₂ hc₂ z₂ hz₂) hdiff

theorem c3_witness :
    (bio_get_frame constMetaInput 1).2 0 = MetaVal.scalar 7 :=
  (c3_metadata_folding constMetaInput 1 0 (by decide) (by decide)).1 7
    (by decide)
